import Mathlib

/-!
Verification development for `tools/clang-func-mapping/ClangFnMapGen.cpp`.

The tool walks a translation unit's declaration tree, records externally
visible function definitions and bodiless external references into two
in-memory text buffers, and flushes those buffers at unit teardown into two
shared append-only dataset files using an exclusive advisory file lock.

The shallow embedding below translates the tool's own logic
(`getTripleSuffix`, the `FunctionDecl` branch of
`MapFunctionNamesConsumer::handleDecl`, the recursive declaration walk,
`lockedWrite`, the destructor flush, and `main`'s exit-code logic) into
executable Lean definitions.  Facts supplied by the external clang/LLVM
libraries (linkage of a declaration, presence of a body, mangled name,
builtin id, source location, `realpath` outcome, `llvm::sys::path::append`)
are carried as explicit data or embedded from their documented behaviour.
-/

set_option maxHeartbeats 1000000

namespace ClangFnMapGen

/-- Linkage values of the clang `Linkage` enumeration as returned by
`FunctionDecl::getLinkageInternal` in the clang version this tool targets. -/
inductive Linkage where
  | NoLinkage
  | InternalLinkage
  | UniqueExternalLinkage
  | VisibleNoLinkage
  | ExternalLinkage
  deriving DecidableEq, Repr

/-- A representative subset of `llvm::Triple::ArchType` covering the
architectures relevant to the claims (including `thumb`, which
`getTripleSuffix` normalizes to `arm`). -/
inductive ArchType where
  | arm
  | thumb
  | aarch64
  | x86_64
  | mips
  | ppc
  deriving DecidableEq, Repr

/-- The string `llvm::Triple::getArchTypeName` returns for each modelled
architecture. -/
def archTypeName : ArchType → String
  | .arm => "arm"
  | .thumb => "thumb"
  | .aarch64 => "aarch64"
  | .x86_64 => "x86_64"
  | .mips => "mips"
  | .ppc => "powerpc"

/-- A target triple: architecture plus the vendor / operating-system /
environment components (the latter three are deliberately ignored by the
tool; keeping them in the model lets us state that fact). -/
structure Triple where
  arch : ArchType
  vendor : String
  os : String
  environment : String
  deriving DecidableEq, Repr

/-- Embedding of `getTripleSuffix` (ClangFnMapGen.cpp, lines 62-69):
take the architecture of the target triple, replace `thumb` by `arm`,
and return the architecture's name.  Vendor, OS and environment are
not consulted. -/
def getTripleSuffix (t : Triple) : String :=
  let T := if t.arch = ArchType.thumb then ArchType.arm else t.arch
  archTypeName T

/-- The consumer's `Triple` member, initialized in the
`MapFunctionNamesConsumer` constructor as `"@" + getTripleSuffix(Context)`. -/
def consumerTriple (t : Triple) : String := "@" ++ getTripleSuffix t

/-- The per-declaration facts the external clang front-end exposes about a
`FunctionDecl`:
its mangled identity (the result of `getMangledName`, i.e. Itanium mangling
with the complete-object variant chosen for constructors/destructors),
whether `FD->getBody()` is non-null (clang resolves this across
redeclarations: a forward declaration of a function defined elsewhere in the
unit reports the definition's body), whether the body's start location is in
the unit's main file (`SM.isInMainFile(Body->getLocStart())`), the linkage,
and the builtin id (`FD->getBuiltinID()`, `0` meaning "not a recognized
compiler builtin"). -/
structure FunctionDeclInfo where
  mangledName : String
  hasBody : Bool
  bodyInMainFile : Bool
  linkage : Linkage
  builtinID : Nat
  deriving DecidableEq, Repr

mutual
/-- A declaration node: optionally a `FunctionDecl` (with its facts), and -
viewing the node as a `DeclContext` - the list of declarations it contains
(empty for non-containers).  This mirrors the two independent `dyn_cast`
tests in `handleDecl`. -/
inductive Decl where
  | mk : Option FunctionDeclInfo → DeclList → Decl

/-- A list of declarations inside a `DeclContext`. -/
inductive DeclList where
  | nil : DeclList
  | cons : Decl → DeclList → DeclList
end

/-- The per-unit environment supplied by the external libraries: the
compilation target triple, and the outcome of `realpath` on the main
source file's name (`none` models `realpath` returning a null pointer,
i.e. the main file not being resolvable to an absolute path). -/
structure Env where
  triple : Triple
  realpathResult : Option String
  deriving DecidableEq, Repr

/-- The mutable state of a `MapFunctionNamesConsumer`: the two
`std::stringstream` buffers, and the `CurrentFileName` cache (empty string
until first resolved).  `resolveCount` is a ghost counter recording how many
times `realpath` has been invoked; it influences nothing and exists only so
that the resolved-at-most-once property can be stated. -/
structure ConsumerState where
  definedFuncsStr : String
  externFuncStr : String
  currentFileName : String
  resolveCount : Nat
  deriving DecidableEq, Repr

/-- Consumer state at construction: both buffers and the file-name cache are
empty. -/
def initialConsumerState : ConsumerState :=
  { definedFuncsStr := "", externFuncStr := "", currentFileName := "", resolveCount := 0 }

/-- Whether a string's first character is the POSIX path separator. -/
def startsWithSep (s : String) : Bool :=
  match s.data with
  | [] => false
  | c :: _ => c == '/'

/-- Whether a string's last character is the POSIX path separator. -/
def endsWithSep (s : String) : Bool :=
  match s.data.getLast? with
  | some c => c == '/'
  | none => false

/-- Drop leading POSIX path separators. -/
def dropLeadingSeps (s : String) : String :=
  String.mk (s.data.dropWhile (fun c => c == '/'))

/-- Embedding of `llvm::sys::path::append` for a single component, POSIX
style: if the path already ends in a separator, strip the component's leading
separators and concatenate; otherwise insert a separator unless the component
itself starts with one or the path is empty.  (The POSIX `//net`-style
root-name special case of LLVM's implementation is irrelevant to the paths
this tool builds and is not modelled.) -/
def pathAppendOne (path comp : String) : String :=
  if endsWithSep path then path ++ dropLeadingSeps comp
  else if !startsWithSep comp && !(path == "") then path ++ "/" ++ comp
  else path ++ comp

/-- Embedding of the `FunctionDecl` branch of
`MapFunctionNamesConsumer::handleDecl` (ClangFnMapGen.cpp, lines 115-144).
If the function has a body: resolve and cache the main file's absolute path
on first need (`realpath` returning null makes the code assign a null
pointer to a `std::string`, which crashes; modelled as `none`, aborting the
unit), then, for external-ish linkage only, append one line
`[!]<mangled>@<arch> <ast/<arch>/<main-file>>\n` to the Defined buffer.
If it has no body and is not a recognized builtin, append
`<mangled>@<arch>\n` to the External buffer.  A bodiless builtin is skipped. -/
def handleFunctionDecl (env : Env) (fd : FunctionDeclInfo) (st : ConsumerState) :
    Option ConsumerState :=
  if fd.hasBody then
    match (if st.currentFileName = "" then
            match env.realpathResult with
            | none => none
            | some p =>
              some { st with currentFileName := p, resolveCount := st.resolveCount + 1 }
          else some st) with
    | none => none
    | some st1 =>
      let fileName :=
        pathAppendOne (pathAppendOne "ast" (getTripleSuffix env.triple)) st1.currentFileName
      let fullName := fd.mangledName ++ consumerTriple env.triple
      match fd.linkage with
      | .ExternalLinkage | .VisibleNoLinkage | .UniqueExternalLinkage =>
        some { st1 with definedFuncsStr :=
          st1.definedFuncsStr ++ (if fd.bodyInMainFile then "!" else "") ++
            fullName ++ " " ++ fileName ++ "\n" }
      | _ => some st1
  else if fd.builtinID = 0 then
    some { st with externFuncStr :=
      st.externFuncStr ++ fd.mangledName ++ consumerTriple env.triple ++ "\n" }
  else
    some st

mutual
/-- Embedding of `MapFunctionNamesConsumer::handleDecl`: process the node's
`FunctionDecl` part (if any), then recurse into the declarations it
contains.  `none` propagates an abort of the unit's processing. -/
def handleDecl (env : Env) : Decl → ConsumerState → Option ConsumerState
  | .mk fd subs, st =>
    match (match fd with
           | some f => handleFunctionDecl env f st
           | none => some st) with
    | none => none
    | some st1 => handleDecls env subs st1

/-- Process the declarations of a `DeclContext` in order. -/
def handleDecls (env : Env) : DeclList → ConsumerState → Option ConsumerState
  | .nil, st => some st
  | .cons d ds, st =>
    match handleDecl env d st with
    | none => none
    | some st1 => handleDecls env ds st1
end

/-- Embedding of `HandleTranslationUnit`: run `handleDecl` on the
translation-unit declaration starting from the freshly constructed
consumer's state. -/
def runUnit (env : Env) (tu : Decl) : Option ConsumerState :=
  handleDecl env tu initialConsumerState

/-- A file operation performed by `lockedWrite`, tagged with the file it
targets: `open(2)` with `O_CREAT|O_WRONLY|O_APPEND`, `flock(LOCK_EX)`, a
single `write(2)` of the given bytes, `flock(LOCK_UN)`, `close(2)`. -/
inductive FileOp where
  | openOp : String → FileOp
  | lockEx : String → FileOp
  | writeOp : String → String → FileOp
  | unlockOp : String → FileOp
  | closeOp : String → FileOp
  deriving DecidableEq, Repr

/-- The file a `FileOp` targets. -/
def FileOp.fileOf : FileOp → String
  | .openOp f => f
  | .lockEx f => f
  | .writeOp f _ => f
  | .unlockOp f => f
  | .closeOp f => f

/-- Embedding of `lockedWrite` (ClangFnMapGen.cpp, lines 50-60).
Arguments: the target file's name, the buffer `content`, the file's current
byte content, and `written`, the byte count the single `write(2)` call
reports.  If the buffer is empty, nothing happens and no file operation is
performed.  Otherwise the file is opened, exclusively locked and written
once; `assert(written == content.size())` then aborts the invocation
(result `none`, before the unlock and close are reached) unless the whole
buffer was transferred in that one write.  Returns the resulting file
content (`none` = invocation aborted) and the trace of file operations. -/
def lockedWrite (fileName content fileContent : String) (written : Int) :
    Option String × List FileOp :=
  if content = "" then (some fileContent, [])
  else if written = (content.length : Int) then
    (some (fileContent ++ content),
     [FileOp.openOp fileName, FileOp.lockEx fileName,
      FileOp.writeOp fileName content, FileOp.unlockOp fileName,
      FileOp.closeOp fileName])
  else
    (none,
     [FileOp.openOp fileName, FileOp.lockEx fileName,
      FileOp.writeOp fileName content])

/-- The two shared dataset files of the CTU directory. -/
structure FileSystem where
  definedFns : String
  externalFns : String
  deriving DecidableEq, Repr

/-- Path of `externalFns.txt` inside the CTU directory
(`llvm::sys::path::append(ExternalFns, "externalFns.txt")`). -/
def externalFnsPath (ctuDir : String) : String :=
  pathAppendOne ctuDir "externalFns.txt"

/-- Path of `definedFns.txt` inside the CTU directory
(`llvm::sys::path::append(DefinedFns, "definedFns.txt")`). -/
def definedFnsPath (ctuDir : String) : String :=
  pathAppendOne ctuDir "definedFns.txt"

/-- Embedding of `MapFunctionNamesConsumer::~MapFunctionNamesConsumer`
(ClangFnMapGen.cpp, lines 162-170): flush the External buffer, then the
Defined buffer, each through `lockedWrite`.  `writtenE` / `writtenD` are the
byte counts the respective `write(2)` calls report.  If the first flush
aborts, the second is never reached.  Returns the resulting file system
(`none` = invocation aborted) and the concatenated operation trace. -/
def flushConsumer (ctuDir : String) (st : ConsumerState) (fs : FileSystem)
    (writtenE writtenD : Int) : Option FileSystem × List FileOp :=
  match lockedWrite (externalFnsPath ctuDir) st.externFuncStr fs.externalFns writtenE with
  | (none, ops1) => (none, ops1)
  | (some e, ops1) =>
    match lockedWrite (definedFnsPath ctuDir) st.definedFuncsStr fs.definedFns writtenD with
    | (none, ops2) => (none, ops1 ++ ops2)
    | (some d, ops2) => (some { definedFns := d, externalFns := e }, ops1 ++ ops2)

/-- Embedding of `main` (ClangFnMapGen.cpp, lines 194-209) as far as the
exit code is concerned: if the `-ctu-dir` option does not occur exactly
once, print an error and return 1; otherwise run the tool over the units and
return 0, discarding `ClangTool::run`'s result (`toolRunResult`). -/
def mainFn (ctuDirOccurrences : Nat) (toolRunResult : Int) : Int :=
  if ctuDirOccurrences ≠ 1 then 1
  else
    let _ := toolRunResult
    0

/-- The phases an invocation's flush of one buffer to one shared file goes
through: `open`, `flock(LOCK_EX)`, single `write`, `flock(LOCK_UN)`,
`close`. -/
inductive Phase where
  | start
  | opened
  | locked
  | written
  | unlocked
  | done
  deriving DecidableEq, Repr

/-- State of N concurrent invocations flushing to one shared dataset file:
each invocation's buffer (as its list of lines), each invocation's phase,
whether some invocation currently holds the exclusive lock, and the shared
file's lines. -/
structure LockSys where
  bufs : List (List String)
  phases : List Phase
  lockHeld : Bool
  file : List String
  deriving DecidableEq, Repr

/-- One atomic step of invocation `i`: opening is always possible; the lock
is acquired only when free (otherwise the invocation blocks and the state is
unchanged); the single write appends the invocation's whole buffer while the
lock is held; then unlock and close.  Out-of-range `i` and finished
invocations leave the state unchanged. -/
def stepWriter (s : LockSys) (i : Nat) : LockSys :=
  match s.phases[i]? with
  | none => s
  | some ph =>
    match ph with
    | .start => { s with phases := s.phases.set i .opened }
    | .opened =>
      if s.lockHeld then s
      else { s with phases := s.phases.set i .locked, lockHeld := true }
    | .locked =>
      { s with phases := s.phases.set i .written, file := s.file ++ s.bufs.getD i [] }
    | .written => { s with phases := s.phases.set i .unlocked, lockHeld := false }
    | .unlocked => { s with phases := s.phases.set i .done }
    | .done => s

/-- Run a schedule (an arbitrary interleaving of the invocations' steps). -/
def runSched (s : LockSys) (sched : List Nat) : LockSys :=
  sched.foldl stepWriter s

/-- Initial state of N concurrent flushes to an initially empty shared
dataset file. -/
def initLockSys (bufs : List (List String)) : LockSys :=
  { bufs := bufs, phases := List.replicate bufs.length Phase.start,
    lockHeld := false, file := [] }

/-- Number of lines an invocation in the given phase has yet to contribute
to the shared file. -/
def phaseWeight (ph : Phase) (b : List String) : Nat :=
  match ph with
  | .start => b.length
  | .opened => b.length
  | .locked => b.length
  | _ => 0

/-- Total number of lines the invocations have yet to contribute. -/
def pendingSum : List Phase → List (List String) → Nat
  | [], _ => 0
  | _ :: _, [] => 0
  | ph :: phs, b :: bs => phaseWeight ph b + pendingSum phs bs

/-- The linkage values for which `handleDecl` records a definition: the
three explicit cases of its `switch`. -/
def externishLinkage : Linkage → Bool
  | .ExternalLinkage => true
  | .VisibleNoLinkage => true
  | .UniqueExternalLinkage => true
  | _ => false

/-- Whether `handleDecl` appends a Defined line for this function: it has a
body and external-ish linkage. -/
def recordsDefined (fd : FunctionDeclInfo) : Bool :=
  fd.hasBody && externishLinkage fd.linkage

/-- Whether `handleDecl` appends an External line for this function: it has
no body and is not a recognized compiler builtin. -/
def recordsExternal (fd : FunctionDeclInfo) : Bool :=
  !fd.hasBody && fd.builtinID == 0

/-- A function's architecture-qualified identity: mangled name plus the
consumer's `@<arch>` suffix. -/
def identityOf (env : Env) (fd : FunctionDeclInfo) : String :=
  fd.mangledName ++ consumerTriple env.triple

/-- The virtual path recorded on a Defined line:
`sys::path::append("ast", <arch>, CurrentFileName)`. -/
def virtualPath (env : Env) (p : String) : String :=
  pathAppendOne (pathAppendOne "ast" (getTripleSuffix env.triple)) p

/-- The Defined line `handleDecl` emits for a recorded definition, given the
resolved main-file path `p`. -/
def definedLineFor (env : Env) (p : String) (fd : FunctionDeclInfo) : String :=
  (if fd.bodyInMainFile then "!" else "") ++ fd.mangledName ++
    consumerTriple env.triple ++ " " ++ virtualPath env p ++ "\n"

/-- The External line `handleDecl` emits for a bodiless non-builtin. -/
def externLineFor (env : Env) (fd : FunctionDeclInfo) : String :=
  fd.mangledName ++ consumerTriple env.triple ++ "\n"

mutual
/-- All `FunctionDecl`s of a declaration tree, in the order `handleDecl`
visits them (the node's own function part first, then its contents). -/
def collectFns : Decl → List FunctionDeclInfo
  | .mk fd subs => fd.toList ++ collectFnsList subs

/-- All `FunctionDecl`s of a declaration list, in visit order. -/
def collectFnsList : DeclList → List FunctionDeclInfo
  | .nil => []
  | .cons d ds => collectFns d ++ collectFnsList ds
end

/-- Process a list of function declarations in order, threading the consumer
state; `none` aborts. -/
def runFns (env : Env) : List FunctionDeclInfo → ConsumerState → Option ConsumerState
  | [], st => some st
  | fd :: fns, st =>
    match handleFunctionDecl env fd st with
    | none => none
    | some st1 => runFns env fns st1

/-- Concatenation of a list of strings. -/
def strConcat : List String → String
  | [] => ""
  | s :: ss => s ++ strConcat ss

/-- The Defined lines a unit emits, given the resolved main-file path `p`. -/
def definedLines (env : Env) (p : String) (tu : Decl) : List String :=
  ((collectFns tu).filter recordsDefined).map (definedLineFor env p)

/-- The External lines a unit emits. -/
def externLines (env : Env) (tu : Decl) : List String :=
  ((collectFns tu).filter recordsExternal).map (externLineFor env)

theorem runFns_append (env : Env) (as bs : List FunctionDeclInfo) (st : ConsumerState) :
    runFns env (as ++ bs) st =
      (match runFns env as st with
       | none => none
       | some st1 => runFns env bs st1) := by
  induction as generalizing st with
  | nil => rfl
  | cons fd rest ih =>
    simp only [List.cons_append, runFns]
    cases handleFunctionDecl env fd st with
    | none => rfl
    | some st1 => exact ih st1

mutual
theorem handleDecl_eq (env : Env) (d : Decl) (st : ConsumerState) :
    handleDecl env d st = runFns env (collectFns d) st := by
  cases d with
  | mk fd subs =>
    cases fd with
    | none =>
      simp only [handleDecl, collectFns, Option.toList, List.nil_append]
      exact handleDecls_eq env subs st
    | some f =>
      simp only [handleDecl, collectFns, Option.toList, List.singleton_append, runFns]
      cases handleFunctionDecl env f st with
      | none => rfl
      | some st1 => exact handleDecls_eq env subs st1

theorem handleDecls_eq (env : Env) (ds : DeclList) (st : ConsumerState) :
    handleDecls env ds st = runFns env (collectFnsList ds) st := by
  cases ds with
  | nil => rfl
  | cons d dd =>
    simp only [handleDecls, collectFnsList, runFns_append, handleDecl_eq env d st]
    cases runFns env (collectFns d) st with
    | none => rfl
    | some st1 => exact handleDecls_eq env dd st1
end

/-- Invariant maintained by the main-file-path cache: either the cache is
still empty and `realpath` has never been invoked, or it holds the resolved
path `p` and `realpath` has been invoked at most once. -/
def resolvedInv (p : String) (st : ConsumerState) : Prop :=
  (st.currentFileName = "" ∧ st.resolveCount = 0) ∨
  (st.currentFileName = p ∧ st.resolveCount ≤ 1)

theorem handleFunctionDecl_step (env : Env) (p : String)
    (hrp : env.realpathResult = some p) (hp : p ≠ "")
    (fd : FunctionDeclInfo) (st : ConsumerState) (hst : resolvedInv p st) :
    ∃ st', handleFunctionDecl env fd st = some st' ∧
      st'.definedFuncsStr = st.definedFuncsStr ++
        (if recordsDefined fd then definedLineFor env p fd else "") ∧
      st'.externFuncStr = st.externFuncStr ++
        (if recordsExternal fd then externLineFor env fd else "") ∧
      resolvedInv p st' := by
  obtain ⟨nm, hbody, bim, lk, bid⟩ := fd
  cases hbody with
  | false =>
    by_cases hbi : bid = 0
    · refine ⟨⟨st.definedFuncsStr,
          st.externFuncStr ++ nm ++ consumerTriple env.triple ++ "\n",
          st.currentFileName, st.resolveCount⟩, ?_, ?_, ?_, ?_⟩
      · simp [handleFunctionDecl, hbi]
      · simp [recordsDefined, String.append_empty]
      · simp [recordsExternal, hbi, externLineFor, String.append_assoc]
      · rcases hst with ⟨h1, h2⟩ | ⟨h1, h2⟩
        · exact Or.inl ⟨h1, h2⟩
        · exact Or.inr ⟨h1, h2⟩
    · have hb0 : (bid == 0) = false := beq_eq_false_iff_ne.mpr hbi
      refine ⟨st, ?_, ?_, ?_, hst⟩
      · simp [handleFunctionDecl, hbi]
      · simp [recordsDefined, String.append_empty]
      · simp [recordsExternal, hb0, String.append_empty]
  | true =>
    rcases hst with ⟨h1, h2⟩ | ⟨h1, h2⟩
    · refine ⟨⟨st.definedFuncsStr ++
          (if recordsDefined ⟨nm, true, bim, lk, bid⟩ then
            definedLineFor env p ⟨nm, true, bim, lk, bid⟩ else ""),
          st.externFuncStr, p, st.resolveCount + 1⟩,
        ?_, rfl, ?_, Or.inr ⟨rfl, by show st.resolveCount + 1 ≤ 1; omega⟩⟩
      · cases lk <;>
          simp [handleFunctionDecl, h1, hrp, recordsDefined, externishLinkage,
                definedLineFor, virtualPath, String.append_assoc, String.append_empty]
      · simp [recordsExternal, String.append_empty]
    · refine ⟨⟨st.definedFuncsStr ++
          (if recordsDefined ⟨nm, true, bim, lk, bid⟩ then
            definedLineFor env p ⟨nm, true, bim, lk, bid⟩ else ""),
          st.externFuncStr, st.currentFileName, st.resolveCount⟩,
        ?_, rfl, ?_, Or.inr ⟨h1, h2⟩⟩
      · have hne : ¬(st.currentFileName = "") := by rw [h1]; exact hp
        have hst' : st = ⟨st.definedFuncsStr, st.externFuncStr, p, st.resolveCount⟩ := by
          rw [← h1]
        cases lk <;>
          simp [handleFunctionDecl, hne, hp, h1, recordsDefined, externishLinkage,
                definedLineFor, virtualPath, String.append_assoc, String.append_empty] <;>
          exact hst'
      · simp [recordsExternal, String.append_empty]

theorem runFns_char (env : Env) (p : String)
    (hrp : env.realpathResult = some p) (hp : p ≠ "") :
    ∀ (fns : List FunctionDeclInfo) (st : ConsumerState), resolvedInv p st →
    ∃ st', runFns env fns st = some st' ∧
      st'.definedFuncsStr = st.definedFuncsStr ++
        strConcat ((fns.filter recordsDefined).map (definedLineFor env p)) ∧
      st'.externFuncStr = st.externFuncStr ++
        strConcat ((fns.filter recordsExternal).map (externLineFor env)) ∧
      resolvedInv p st' := by
  intro fns
  induction fns with
  | nil =>
    intro st hst
    exact ⟨st, rfl, by simp [strConcat, String.append_empty],
           by simp [strConcat, String.append_empty], hst⟩
  | cons fd rest ih =>
    intro st hst
    obtain ⟨st1, heq, hdef, hext, hinv⟩ := handleFunctionDecl_step env p hrp hp fd st hst
    obtain ⟨st', heq', hdef', hext', hinv'⟩ := ih st1 hinv
    refine ⟨st', ?_, ?_, ?_, hinv'⟩
    · simp [runFns, heq, heq']
    · rw [hdef', hdef]
      cases hrd : recordsDefined fd <;>
        simp [hrd, List.filter_cons, strConcat, String.append_assoc, String.append_empty]
    · rw [hext', hext]
      cases hre : recordsExternal fd <;>
        simp [hre, List.filter_cons, strConcat, String.append_assoc, String.append_empty]

theorem runFns_none (env : Env) (hrp : env.realpathResult = none) :
    ∀ (fns : List FunctionDeclInfo) (st : ConsumerState), st.currentFileName = "" →
      runFns env fns st = none ∨
      ∃ st', runFns env fns st = some st' ∧
        st'.definedFuncsStr = st.definedFuncsStr ∧
        st'.resolveCount = st.resolveCount ∧
        st'.currentFileName = "" := by
  intro fns
  induction fns with
  | nil => intro st h; exact Or.inr ⟨st, rfl, rfl, rfl, h⟩
  | cons fd rest ih =>
    intro st h
    cases hb : fd.hasBody with
    | true =>
      left
      simp [runFns, handleFunctionDecl, hb, h, hrp]
    | false =>
      by_cases hbi : fd.builtinID = 0
      · have heq : handleFunctionDecl env fd st = some ⟨st.definedFuncsStr,
            st.externFuncStr ++ fd.mangledName ++ consumerTriple env.triple ++ "\n",
            st.currentFileName, st.resolveCount⟩ := by
          simp [handleFunctionDecl, hb, hbi]
        rcases ih ⟨st.definedFuncsStr,
            st.externFuncStr ++ fd.mangledName ++ consumerTriple env.triple ++ "\n",
            st.currentFileName, st.resolveCount⟩ h with
          hnone | ⟨st', h1, h2, h3, h4⟩
        · left
          simpa [runFns, heq] using hnone
        · right
          refine ⟨st', ?_, h2, h3, h4⟩
          simpa [runFns, heq] using h1
      · have heq : handleFunctionDecl env fd st = some st := by
          simp [handleFunctionDecl, hb, hbi]
        rcases ih st h with hnone | ⟨st', h1, h2, h3, h4⟩
        · left
          simpa [runFns, heq] using hnone
        · right
          refine ⟨st', ?_, h2, h3, h4⟩
          simpa [runFns, heq] using h1

theorem runUnit_char (env : Env) (tu : Decl) (p : String)
    (hrp : env.realpathResult = some p) (hp : p ≠ "") :
    ∃ st', runUnit env tu = some st' ∧
      st'.definedFuncsStr = strConcat (definedLines env p tu) ∧
      st'.externFuncStr = strConcat (externLines env tu) ∧
      st'.resolveCount ≤ 1 ∧
      (st'.currentFileName = "" ∨ st'.currentFileName = p) := by
  obtain ⟨st', h1, h2, h3, h4⟩ :=
    runFns_char env p hrp hp (collectFns tu) initialConsumerState (Or.inl ⟨rfl, rfl⟩)
  refine ⟨st', ?_, ?_, ?_, ?_, ?_⟩
  · rw [runUnit, handleDecl_eq]; exact h1
  · simpa [initialConsumerState, definedLines, String.empty_append] using h2
  · simpa [initialConsumerState, externLines, String.empty_append] using h3
  · rcases h4 with ⟨_, hr⟩ | ⟨_, hr⟩
    · omega
    · exact hr
  · rcases h4 with ⟨hc, _⟩ | ⟨hc, _⟩
    · exact Or.inl hc
    · exact Or.inr hc

theorem str_append_left_ne (a x y : String) (hxy : x.data ≠ y.data) : a ++ x ≠ a ++ y := by
  intro h
  have hd := congrArg String.data h
  simp only [String.data_append] at hd
  exact hxy (List.append_cancel_left hd)

theorem str_append_right_cancel (a b s : String) (h : a ++ s = b ++ s) : a = b := by
  apply String.ext
  have hd := congrArg String.data h
  simp only [String.data_append] at hd
  exact List.append_cancel_right hd

theorem startsWithSep_of_head (p : String) (habs : p.data.head? = some '/') :
    startsWithSep p = true := by
  unfold startsWithSep
  cases hd : p.data with
  | nil => rw [hd] at habs; simp at habs
  | cons c cs =>
    rw [hd] at habs
    simp only [List.head?_cons, Option.some.injEq] at habs
    rw [habs]
    simp

theorem pathAppendOne_abs (q p : String) (hq : endsWithSep q = false)
    (hp : startsWithSep p = true) : pathAppendOne q p = q ++ p := by
  simp [pathAppendOne, hq, hp]

theorem tripleSuffix_path (t : Triple) :
    pathAppendOne "ast" (getTripleSuffix t) = "ast/" ++ getTripleSuffix t ∧
    endsWithSep ("ast/" ++ getTripleSuffix t) = false := by
  obtain ⟨a, v, o, e⟩ := t
  cases a <;> exact ⟨rfl, rfl⟩

theorem virtualPath_eq (env : Env) (p : String) (habs : p.data.head? = some '/') :
    virtualPath env p = "ast/" ++ getTripleSuffix env.triple ++ p := by
  obtain ⟨h1, h2⟩ := tripleSuffix_path env.triple
  rw [virtualPath, h1, pathAppendOne_abs _ _ h2 (startsWithSep_of_head p habs)]

theorem externalFnsPath_ne_definedFnsPath (c : String) :
    externalFnsPath c ≠ definedFnsPath c := by
  have hne : ("externalFns.txt").data ≠ ("definedFns.txt").data := by decide
  have hs1 : startsWithSep "externalFns.txt" = false := by decide
  have hs2 : startsWithSep "definedFns.txt" = false := by decide
  have hd1 : dropLeadingSeps "externalFns.txt" = "externalFns.txt" := by decide
  have hd2 : dropLeadingSeps "definedFns.txt" = "definedFns.txt" := by decide
  unfold externalFnsPath definedFnsPath pathAppendOne
  rw [hd1, hd2, hs1, hs2]
  by_cases he : endsWithSep c = true
  · simp only [he, if_true]
    exact str_append_left_ne c _ _ hne
  · simp only [he, if_false]
    by_cases hcc : (!false && !(c == "")) = true
    · simp only [hcc, if_true]
      intro h
      exact str_append_left_ne (c ++ "/") _ _ hne (by
        simpa [String.append_assoc] using h)
    · simp only [hcc, if_false]
      exact str_append_left_ne c _ _ hne

theorem runUnit_none (env : Env) (tu : Decl) (hrp : env.realpathResult = none) :
    runUnit env tu = none ∨
      ∃ st', runUnit env tu = some st' ∧
        st'.definedFuncsStr = "" ∧ st'.resolveCount = 0 ∧ st'.currentFileName = "" := by
  rcases runFns_none env hrp (collectFns tu) initialConsumerState rfl with
    h | ⟨st', h1, h2, h3, h4⟩
  · left; rw [runUnit, handleDecl_eq]; exact h
  · right
    exact ⟨st', by rw [runUnit, handleDecl_eq]; exact h1, h2, h3, h4⟩

theorem phaseWeight_nil (ph : Phase) : phaseWeight ph [] = 0 := by
  cases ph <;> rfl

theorem pendingSum_set (phs : List Phase) (bs : List (List String)) :
    ∀ (i : Nat) (ph ph' : Phase), phs[i]? = some ph →
    pendingSum (phs.set i ph') bs + phaseWeight ph (bs.getD i []) =
      pendingSum phs bs + phaseWeight ph' (bs.getD i []) := by
  induction phs generalizing bs with
  | nil => intro i ph ph' h; simp at h
  | cons q rest ih =>
    intro i ph ph' h
    cases i with
    | zero =>
      simp only [List.getElem?_cons_zero, Option.some.injEq] at h
      subst h
      cases bs with
      | nil => simp [pendingSum, phaseWeight_nil, List.set]
      | cons b bs' =>
        simp only [List.set, pendingSum, List.getD_cons_zero]
        omega
    | succ i' =>
      simp only [List.getElem?_cons_succ] at h
      cases bs with
      | nil => simp [pendingSum, phaseWeight_nil, List.set]
      | cons b bs' =>
        have := ih bs' i' ph ph' h
        simp only [List.set, pendingSum, List.getD_cons_succ]
        omega

theorem stepWriter_bufs (s : LockSys) (i : Nat) : (stepWriter s i).bufs = s.bufs := by
  cases h : s.phases[i]? with
  | none => simp [stepWriter, h]
  | some ph =>
    cases ph <;> simp [stepWriter, h, apply_ite LockSys.bufs]

theorem stepWriter_measure (s : LockSys) (i : Nat) :
    (stepWriter s i).file.length + pendingSum (stepWriter s i).phases (stepWriter s i).bufs =
      s.file.length + pendingSum s.phases s.bufs := by
  cases h : s.phases[i]? with
  | none => simp [stepWriter, h]
  | some ph =>
    cases ph
    case start =>
      have hps := pendingSum_set s.phases s.bufs i .start .opened h
      have hw : phaseWeight Phase.start (s.bufs.getD i []) =
          phaseWeight Phase.opened (s.bufs.getD i []) := rfl
      simp only [stepWriter, h]
      omega
    case opened =>
      have hps := pendingSum_set s.phases s.bufs i .opened .locked h
      have hw : phaseWeight Phase.opened (s.bufs.getD i []) =
          phaseWeight Phase.locked (s.bufs.getD i []) := rfl
      simp only [stepWriter, h]
      split
      · rfl
      · show s.file.length + pendingSum (s.phases.set i Phase.locked) s.bufs =
          s.file.length + pendingSum s.phases s.bufs
        omega
    case locked =>
      have hps := pendingSum_set s.phases s.bufs i .locked .written h
      have hw1 : phaseWeight Phase.locked (s.bufs.getD i []) = (s.bufs.getD i []).length := rfl
      have hw2 : phaseWeight Phase.written (s.bufs.getD i []) = 0 := rfl
      simp only [stepWriter, h, List.length_append]
      omega
    case written =>
      have hps := pendingSum_set s.phases s.bufs i .written .unlocked h
      have hw1 : phaseWeight Phase.written (s.bufs.getD i []) = 0 := rfl
      have hw2 : phaseWeight Phase.unlocked (s.bufs.getD i []) = 0 := rfl
      simp only [stepWriter, h]
      omega
    case unlocked =>
      have hps := pendingSum_set s.phases s.bufs i .unlocked .done h
      have hw1 : phaseWeight Phase.unlocked (s.bufs.getD i []) = 0 := rfl
      have hw2 : phaseWeight Phase.done (s.bufs.getD i []) = 0 := rfl
      simp only [stepWriter, h]
      omega
    case done => simp [stepWriter, h]

theorem stepWriter_file_sub (s : LockSys) (i : Nat) :
    ∀ l ∈ (stepWriter s i).file, l ∈ s.file ∨ ∃ b ∈ s.bufs, l ∈ b := by
  cases h : s.phases[i]? with
  | none => simp only [stepWriter, h]; exact fun l hl => Or.inl hl
  | some ph =>
    cases ph
    case start =>
      simp only [stepWriter, h]
      exact fun l hl => Or.inl hl
    case opened =>
      simp only [stepWriter, h]
      split <;> exact fun l hl => Or.inl hl
    case locked =>
      simp only [stepWriter, h]
      intro l hl
      rcases List.mem_append.mp hl with hin | hin
      · exact Or.inl hin
      · cases hb : s.bufs[i]? with
        | none =>
          rw [List.getD_eq_getElem?_getD, hb] at hin
          simp at hin
        | some b =>
          rw [List.getD_eq_getElem?_getD, hb] at hin
          exact Or.inr ⟨b, List.getElem?_mem hb, hin⟩
    case written =>
      simp only [stepWriter, h]
      exact fun l hl => Or.inl hl
    case unlocked =>
      simp only [stepWriter, h]
      exact fun l hl => Or.inl hl
    case done =>
      simp only [stepWriter, h]
      exact fun l hl => Or.inl hl

theorem runSched_cons (s : LockSys) (i : Nat) (rest : List Nat) :
    runSched s (i :: rest) = runSched (stepWriter s i) rest := rfl

theorem runSched_invariant (sched : List Nat) (s : LockSys) :
    (runSched s sched).bufs = s.bufs ∧
    (runSched s sched).file.length +
        pendingSum (runSched s sched).phases (runSched s sched).bufs =
      s.file.length + pendingSum s.phases s.bufs ∧
    ∀ l ∈ (runSched s sched).file, l ∈ s.file ∨ ∃ b ∈ s.bufs, l ∈ b := by
  induction sched generalizing s with
  | nil => exact ⟨rfl, rfl, fun l hl => Or.inl hl⟩
  | cons i rest ih =>
    obtain ⟨ihb, ihm, ihf⟩ := ih (stepWriter s i)
    rw [runSched_cons]
    refine ⟨ihb.trans (stepWriter_bufs s i), ihm.trans (stepWriter_measure s i), ?_⟩
    intro l hl
    rcases ihf l hl with hin | ⟨b, hb, hlb⟩
    · exact stepWriter_file_sub s i l hin
    · rw [stepWriter_bufs s i] at hb
      exact Or.inr ⟨b, hb, hlb⟩

theorem pendingSum_replicate (bufs : List (List String)) :
    pendingSum (List.replicate bufs.length Phase.start) bufs = (bufs.map List.length).sum := by
  induction bufs with
  | nil => rfl
  | cons b bs ih => simp [List.replicate_succ, pendingSum, phaseWeight, ih]

theorem pendingSum_done (phs : List Phase) (bufs : List (List String))
    (h : ∀ ph ∈ phs, ph = Phase.done) : pendingSum phs bufs = 0 := by
  induction phs generalizing bufs with
  | nil => rfl
  | cons q rest ih =>
    cases bufs with
    | nil => rfl
    | cons b bs =>
      have hq : q = Phase.done := h q (by simp)
      have hrest := ih bs (fun ph hm => h ph (List.mem_cons_of_mem q hm))
      simp [pendingSum, hq, phaseWeight, hrest]

theorem lockedWrite_ops_file (fileName content fileContent : String) (written : Int) :
    ∀ op ∈ (lockedWrite fileName content fileContent written).2, op.fileOf = fileName := by
  intro op h
  unfold lockedWrite at h
  split at h
  · simp at h
  · split at h <;> simp at h <;> rcases h with rfl | rfl | rfl | rfl | rfl <;> rfl

theorem lockedWrite_empty (fileName fileContent : String) (written : Int) :
    lockedWrite fileName "" fileContent written = (some fileContent, []) := by
  simp [lockedWrite]

theorem definedLineFor_length_pos (env : Env) (p : String) (fd : FunctionDeclInfo) :
    0 < (definedLineFor env p fd).length := by
  rw [definedLineFor, String.length_append]
  have h : ("\n" : String).length = 1 := rfl
  omega

theorem append_line_ne (a l : String) (hl : 0 < l.length) : a ++ l ≠ a := by
  intro h
  have hlen := congrArg String.length h
  rw [String.length_append] at hlen
  omega

/-- Fixture: an x86_64 linux unit whose main file resolves to
`/home/user/main.cpp`. -/
def envX : Env :=
  { triple := { arch := .x86_64, vendor := "pc", os := "linux", environment := "gnu" },
    realpathResult := some "/home/user/main.cpp" }

/-- Fixture: a unit whose main file cannot be resolved (`realpath` fails). -/
def envNone : Env :=
  { triple := { arch := .x86_64, vendor := "pc", os := "linux", environment := "gnu" },
    realpathResult := none }

/-- Fixture: a `static` function that is declared but never defined in the
unit: internal linkage, no body, not a builtin. -/
def fdStaticDeclOnly : FunctionDeclInfo :=
  { mangledName := "_ZL1fv", hasBody := false, bodyInMainFile := false,
    linkage := .InternalLinkage, builtinID := 0 }

/-- Fixture: a translation unit containing only the bodiless internal
declaration. -/
def tuStaticDeclOnly : Decl :=
  .mk none (.cons (.mk (some fdStaticDeclOnly) .nil) .nil)

/-- Fixture: the forward declaration of `int add(int, int)`; since the unit
also defines it, clang's `getBody` already reports the definition's body on
this redeclaration. -/
def fdAddFwd : FunctionDeclInfo :=
  { mangledName := "_Z3addii", hasBody := true, bodyInMainFile := true,
    linkage := .ExternalLinkage, builtinID := 0 }

/-- Fixture: the definition of `int add(int, int)` in the unit's main file. -/
def fdAddDef : FunctionDeclInfo :=
  { mangledName := "_Z3addii", hasBody := true, bodyInMainFile := true,
    linkage := .ExternalLinkage, builtinID := 0 }

/-- Fixture: `void foo()`, declared but not defined in the unit. -/
def fdFooExt : FunctionDeclInfo :=
  { mangledName := "_Z3foov", hasBody := false, bodyInMainFile := false,
    linkage := .ExternalLinkage, builtinID := 0 }

/-- Fixture: a unit that forward-declares and defines `add`, and declares
`foo` without defining it. -/
def tuW : Decl :=
  .mk none (.cons (.mk (some fdAddFwd) .nil)
    (.cons (.mk (some fdAddDef) .nil) (.cons (.mk (some fdFooExt) .nil) .nil)))

/-- Fixture: a unit containing a single function definition with a body. -/
def fdBodyOnly : FunctionDeclInfo :=
  { mangledName := "_Z3barv", hasBody := true, bodyInMainFile := true,
    linkage := .ExternalLinkage, builtinID := 0 }

/-- Fixture: a translation unit with one defined function, used against the
unresolvable environment. -/
def tuBody : Decl := .mk none (.cons (.mk (some fdBodyOnly) .nil) .nil)

/-- Fixture: a consumer state whose main-file cache is already resolved. -/
def stResolved : ConsumerState :=
  { definedFuncsStr := "", externFuncStr := "", currentFileName := "/home/user/main.cpp",
    resolveCount := 1 }

/-- C1 (counterexample): the claim states that a function with internal
linkage never contributes a line to either buffer.  But `handleDecl`'s
External branch checks only `getBuiltinID`, not linkage: a bodiless
internal-linkage non-builtin declaration (e.g. `static void f();` with no
definition in the unit) is appended to the External buffer.  Processing a
unit containing exactly that declaration ends with the function's line in
the External buffer. -/
theorem clm1_internal_reaches_external_buffer :
    fdStaticDeclOnly.linkage = Linkage.InternalLinkage ∧
    runUnit envX tuStaticDeclOnly =
      some ⟨"", "_ZL1fv@x86_64\n", "", 0⟩ ∧
    ("_ZL1fv@x86_64\n" : String) ≠ "" := by
  refine ⟨rfl, rfl, ?_⟩
  decide

/-- C1 (amended): a function declaration that has a body and internal (or
no) linkage, and a bodiless declaration that is a recognized compiler
builtin, contribute no line to either buffer. -/
theorem clm1_amended_skipped_declarations (env : Env)
    (fd : FunctionDeclInfo) (st : ConsumerState)
    (h : (fd.hasBody = true ∧
            (fd.linkage = Linkage.InternalLinkage ∨ fd.linkage = Linkage.NoLinkage)) ∨
         (fd.hasBody = false ∧ fd.builtinID ≠ 0)) :
    ∀ st', handleFunctionDecl env fd st = some st' →
      st'.definedFuncsStr = st.definedFuncsStr ∧ st'.externFuncStr = st.externFuncStr := by
  intro st' heq
  obtain ⟨nm, hbody, bim, lk, bid⟩ := fd
  rcases h with ⟨hb, hl⟩ | ⟨hb, hbi⟩
  · simp only at hb
    subst hb
    simp only at hl
    by_cases hc : st.currentFileName = ""
    · cases hrp : env.realpathResult with
      | none => simp [handleFunctionDecl, hc, hrp] at heq
      | some p =>
        rcases hl with rfl | rfl <;>
          (simp [handleFunctionDecl, hc, hrp] at heq; rw [← heq]; exact ⟨rfl, rfl⟩)
    · rcases hl with rfl | rfl <;>
        (simp [handleFunctionDecl, hc] at heq; rw [← heq]; exact ⟨rfl, rfl⟩)
  · simp only at hb
    subst hb
    simp only at hbi
    have hb0 : (bid == 0) = false := beq_eq_false_iff_ne.mpr hbi
    simp [handleFunctionDecl, hb0, hbi] at heq
    rw [← heq]
    exact ⟨rfl, rfl⟩

/-- C1 (amended, witness): the internal-linkage definition fixture leaves
both buffers unchanged. -/
theorem clm1_amended_witness :
    ConsumerState.definedFuncsStr ⟨"", "", "/home/user/main.cpp", 1⟩ =
      ConsumerState.definedFuncsStr initialConsumerState ∧
    ConsumerState.externFuncStr ⟨"", "", "/home/user/main.cpp", 1⟩ =
      ConsumerState.externFuncStr initialConsumerState :=
  clm1_amended_skipped_declarations envX
    ⟨"_ZL3bazv", true, true, Linkage.InternalLinkage, 0⟩ initialConsumerState
    (Or.inl ⟨rfl, Or.inl rfl⟩) ⟨"", "", "/home/user/main.cpp", 1⟩ (by decide)

/-- C2: a short write during `lockedWrite` of a non-empty buffer makes the
`assert` abort the invocation right after the single `write` call: the
result is an abort, the trace contains exactly one write (no piecemeal
retry), and the unlock/close are never reached. -/
theorem clm2_short_write_aborts (fileName content fileContent : String)
    (written : Int) (hne : content ≠ "") (hshort : written < (content.length : Int)) :
    lockedWrite fileName content fileContent written =
      (none, [FileOp.openOp fileName, FileOp.lockEx fileName,
              FileOp.writeOp fileName content]) := by
  have hlt : ¬(written = (content.length : Int)) := by omega
  simp [lockedWrite, hne, hlt]

/-- C2 (witness): a concrete short write (3 of 6 bytes) aborts. -/
theorem clm2_short_write_aborts_witness :
    lockedWrite "/ctu/externalFns.txt" "f@arm\n" "" 3 =
      (none, [FileOp.openOp "/ctu/externalFns.txt", FileOp.lockEx "/ctu/externalFns.txt",
              FileOp.writeOp "/ctu/externalFns.txt" "f@arm\n"]) :=
  clm2_short_write_aborts "/ctu/externalFns.txt" "f@arm\n" "" 3 (by decide) (by decide)

/-- C10: whenever the `-ctu-dir` option occurs exactly once, `main` returns
0; the result of running the tool over the units is discarded, so per-unit
failures cannot change the exit code. -/
theorem clm10_exit_code_zero (toolRunResult : Int) : mainFn 1 toolRunResult = 0 := by
  simp [mainFn]

/-- C3: within one unit, `realpath` is invoked at most once (the ghost
counter of a completed run never exceeds 1) and the cached value is the
resolved path used from then on; when the main file cannot be resolved, the
unit aborts at the first definition needing the path, so a completed run has
an empty Defined buffer (no record with an unknown path is ever emitted). -/
theorem clm3_mainfile_resolved_once_or_abort (env : Env) (tu : Decl)
    (hne : ∀ q, env.realpathResult = some q → q ≠ "") :
    (∀ st', runUnit env tu = some st' →
       st'.resolveCount ≤ 1 ∧
       (st'.currentFileName = "" ∨ env.realpathResult = some st'.currentFileName)) ∧
    (env.realpathResult = none →
       runUnit env tu = none ∨
       ∃ st', runUnit env tu = some st' ∧ st'.definedFuncsStr = "") := by
  constructor
  · intro st' hrun
    cases hrp : env.realpathResult with
    | none =>
      rcases runUnit_none env tu hrp with h | ⟨st'', h1, _, h3, h4⟩
      · rw [h] at hrun; cases hrun
      · rw [h1] at hrun
        injection hrun with he
        subst he
        exact ⟨by omega, Or.inl h4⟩
    | some p =>
      obtain ⟨st'', h1, _, _, h4, h5⟩ := runUnit_char env tu p hrp (hne p hrp)
      rw [h1] at hrun
      injection hrun with he
      subst he
      refine ⟨h4, ?_⟩
      rcases h5 with hc | hc
      · exact Or.inl hc
      · exact Or.inr (congrArg some hc.symm)
  · intro hrp
    rcases runUnit_none env tu hrp with h | ⟨st', h1, h2, _, _⟩
    · exact Or.inl h
    · exact Or.inr ⟨st', h1, h2⟩

/-- C3 (witness): with an unresolvable main file and a unit containing a
definition, processing aborts (or would have an empty Defined buffer). -/
theorem clm3_witness :
    runUnit envNone tuBody = none ∨
      ∃ st', runUnit envNone tuBody = some st' ∧ st'.definedFuncsStr = "" :=
  (clm3_mainfile_resolved_once_or_abort envNone tuBody
    (fun _ hq => Option.noConfusion hq)).2 rfl

/-- C4: for a single unit (whose declaration facts are redeclaration
consistent: clang's `getBody` reports the same body presence for every
redeclaration of the same mangled identity, so a function both
forward-declared and defined in the unit has a body on all its
declarations), the unit's buffers are exactly the Defined and External line
lists, and no identity recorded on a Defined line also occurs as an
External line of the same unit. -/
theorem clm4_defined_never_external_same_unit (env : Env) (tu : Decl) (p : String)
    (hrp : env.realpathResult = some p) (hp : p ≠ "")
    (hcons : ∀ f ∈ collectFns tu, ∀ g ∈ collectFns tu,
        f.mangledName = g.mangledName → f.hasBody = g.hasBody) :
    (∃ st', runUnit env tu = some st' ∧
       st'.definedFuncsStr = strConcat (definedLines env p tu) ∧
       st'.externFuncStr = strConcat (externLines env tu)) ∧
    ∀ fd ∈ collectFns tu, recordsDefined fd = true →
      externLineFor env fd ∉ externLines env tu := by
  obtain ⟨st', h1, h2, h3, _, _⟩ := runUnit_char env tu p hrp hp
  refine ⟨⟨st', h1, h2, h3⟩, ?_⟩
  intro fd hfd hrd hmem
  rw [externLines] at hmem
  obtain ⟨g, hgmem, hgline⟩ := List.mem_map.mp hmem
  obtain ⟨hgin, hgext⟩ := List.mem_filter.mp hgmem
  have hname : g.mangledName = fd.mangledName := by
    rw [externLineFor, externLineFor] at hgline
    exact str_append_right_cancel _ _ _ (str_append_right_cancel _ _ _ hgline)
  have hsame := hcons g hgin fd hfd hname
  have hgb : g.hasBody = false := by
    rw [recordsExternal] at hgext
    cases hg : g.hasBody
    · rfl
    · rw [hg] at hgext; simp at hgext
  have hfb : fd.hasBody = true := by
    rw [recordsDefined] at hrd
    cases hf : fd.hasBody
    · rw [hf] at hrd; simp at hrd
    · rfl
  rw [hgb, hfb] at hsame
  cases hsame

/-- C4 (witness): in the fixture unit that forward-declares and defines
`add` and merely declares `foo`, `add`'s identity is not on any External
line. -/
theorem clm4_witness :
    externLineFor envX fdAddDef ∉ externLines envX tuW :=
  (clm4_defined_never_external_same_unit envX tuW "/home/user/main.cpp" rfl
    (by decide) (by decide)).2 fdAddDef (by decide) (by decide)

/-- C6: for a function declaration with a body, processed from a state
whose main-file cache is already resolved to `p`, processing always
succeeds, the External buffer is untouched, and a Defined line is appended
if and only if the linkage is external, visible-no-linkage, or
unique-external; with internal or no linkage the state is completely
unchanged (no output at all). -/
theorem clm6_defined_iff_externish_linkage (env : Env) (fd : FunctionDeclInfo)
    (st : ConsumerState) (p : String) (hb : fd.hasBody = true)
    (hcf : st.currentFileName = p) (hp : p ≠ "") :
    ∃ st', handleFunctionDecl env fd st = some st' ∧
      st'.definedFuncsStr = st.definedFuncsStr ++
        (if externishLinkage fd.linkage then definedLineFor env p fd else "") ∧
      st'.externFuncStr = st.externFuncStr ∧
      (externishLinkage fd.linkage = true ↔
        (fd.linkage = Linkage.ExternalLinkage ∨ fd.linkage = Linkage.VisibleNoLinkage ∨
         fd.linkage = Linkage.UniqueExternalLinkage)) ∧
      (externishLinkage fd.linkage = true → st'.definedFuncsStr ≠ st.definedFuncsStr) ∧
      (externishLinkage fd.linkage = false → st' = st) := by
  obtain ⟨nm, hbody, bim, lk, bid⟩ := fd
  simp only at hb
  subst hb
  have hne : ¬(st.currentFileName = "") := by rw [hcf]; exact hp
  have hst' : st = ⟨st.definedFuncsStr, st.externFuncStr, p, st.resolveCount⟩ := by
    rw [← hcf]
  refine ⟨⟨st.definedFuncsStr ++
      (if externishLinkage lk then definedLineFor env p ⟨nm, true, bim, lk, bid⟩ else ""),
      st.externFuncStr, st.currentFileName, st.resolveCount⟩, ?_, rfl, rfl, ?_, ?_, ?_⟩
  · cases lk <;>
      simp [handleFunctionDecl, hne, hcf, hp, externishLinkage, definedLineFor,
            virtualPath, String.append_assoc, String.append_empty] <;>
      exact hst'
  · cases lk <;> simp [externishLinkage]
  · intro hx
    simp only [hx, if_true]
    exact append_line_ne _ _ (definedLineFor_length_pos env p _)
  · intro hx
    simp only [hx, Bool.false_eq_true, if_false, String.append_empty]

/-- C6 (witness): the concrete externally linked definition appends exactly
its Defined line from the already-resolved fixture state. -/
theorem clm6_witness :
    ∃ st', handleFunctionDecl envX fdAddDef stResolved = some st' ∧
      st'.definedFuncsStr = stResolved.definedFuncsStr ++
        (if externishLinkage fdAddDef.linkage then
          definedLineFor envX "/home/user/main.cpp" fdAddDef else "") ∧
      st'.externFuncStr = stResolved.externFuncStr ∧
      (externishLinkage fdAddDef.linkage = true ↔
        (fdAddDef.linkage = Linkage.ExternalLinkage ∨
         fdAddDef.linkage = Linkage.VisibleNoLinkage ∨
         fdAddDef.linkage = Linkage.UniqueExternalLinkage)) ∧
      (externishLinkage fdAddDef.linkage = true →
        st'.definedFuncsStr ≠ stResolved.definedFuncsStr) ∧
      (externishLinkage fdAddDef.linkage = false → st' = stResolved) :=
  clm6_defined_iff_externish_linkage envX fdAddDef stResolved "/home/user/main.cpp"
    (by decide) rfl (by decide)

/-- C5: for every interleaving of the steps of N concurrent invocations
each performing open / exclusive-lock / single-write / unlock / close
against the same shared dataset file, if all invocations complete, the
file's line count equals the sum of the invocations' line counts, and every
line of the file is a complete line of one of the invocations (no
interleaved or partially written line). -/
theorem clm5_concurrent_flush_serializes (bufs : List (List String)) (sched : List Nat)
    (hdone : ∀ ph ∈ (runSched (initLockSys bufs) sched).phases, ph = Phase.done) :
    (runSched (initLockSys bufs) sched).file.length = (bufs.map List.length).sum ∧
    ∀ l ∈ (runSched (initLockSys bufs) sched).file, ∃ b ∈ bufs, l ∈ b := by
  obtain ⟨hb, hm, hf⟩ := runSched_invariant sched (initLockSys bufs)
  constructor
  · have hz := pendingSum_done (runSched (initLockSys bufs) sched).phases
      (runSched (initLockSys bufs) sched).bufs hdone
    rw [hz] at hm
    have hinit : pendingSum (initLockSys bufs).phases (initLockSys bufs).bufs =
        (bufs.map List.length).sum := by
      simp only [initLockSys]
      exact pendingSum_replicate bufs
    rw [hinit] at hm
    simpa [initLockSys] using hm
  · intro l hl
    rcases hf l hl with hin | hout
    · simp [initLockSys] at hin
    · simpa [initLockSys] using hout

/-- C5 (witness): two concrete invocations run to completion under a
particular interleaving. -/
theorem clm5_witness :
    (runSched (initLockSys [["a@arm"], ["b@arm"]]) [0, 0, 0, 0, 0, 1, 1, 1, 1, 1]).file.length =
      (([["a@arm"], ["b@arm"]] : List (List String)).map List.length).sum ∧
    ∀ l ∈ (runSched (initLockSys [["a@arm"], ["b@arm"]]) [0, 0, 0, 0, 0, 1, 1, 1, 1, 1]).file,
      ∃ b ∈ [["a@arm"], ["b@arm"]], l ∈ b :=
  clm5_concurrent_flush_serializes [["a@arm"], ["b@arm"]] [0, 0, 0, 0, 0, 1, 1, 1, 1, 1]
    (by decide)

/-- C7: in a completed unit whose main file resolved to the absolute path
`p`, the Defined buffer is exactly the concatenation, in traversal order,
of one line per recorded definition, each of the exact form
`[!]<mangled>@<arch> ast/<arch><p>\n`: the virtual path component
`"ast/" ++ <arch> ++ p` is the same in every line of the unit (regardless
of which header the body came from), and `!` is present exactly when the
body's start location lies in the unit's main file. -/
theorem clm7_defined_line_form (env : Env) (tu : Decl) (p : String) (st' : ConsumerState)
    (hrp : env.realpathResult = some p) (hp : p ≠ "")
    (habs : p.data.head? = some '/')
    (hrun : runUnit env tu = some st') :
    st'.definedFuncsStr = strConcat (((collectFns tu).filter recordsDefined).map
      (fun fd => (if fd.bodyInMainFile then "!" else "") ++ fd.mangledName ++
        consumerTriple env.triple ++ " " ++
        ("ast/" ++ getTripleSuffix env.triple ++ p) ++ "\n")) := by
  obtain ⟨st'', h1, h2, _, _, _⟩ := runUnit_char env tu p hrp hp
  rw [hrun] at h1
  injection h1 with he
  subst he
  rw [h2, definedLines]
  congr 1
  apply List.map_congr_left
  intro fd _
  rw [definedLineFor, virtualPath_eq env p habs]

/-- C7 (witness): the fixture unit's Defined buffer has exactly the claimed
shape. -/
theorem clm7_witness :
    ConsumerState.definedFuncsStr
      ⟨"!_Z3addii@x86_64 ast/x86_64/home/user/main.cpp\n!_Z3addii@x86_64 ast/x86_64/home/user/main.cpp\n",
       "_Z3foov@x86_64\n", "/home/user/main.cpp", 1⟩ =
      strConcat (((collectFns tuW).filter recordsDefined).map
        (fun fd => (if fd.bodyInMainFile then "!" else "") ++ fd.mangledName ++
          consumerTriple envX.triple ++ " " ++
          ("ast/" ++ getTripleSuffix envX.triple ++ "/home/user/main.cpp") ++ "\n")) :=
  clm7_defined_line_form envX tuW "/home/user/main.cpp"
    ⟨"!_Z3addii@x86_64 ast/x86_64/home/user/main.cpp\n!_Z3addii@x86_64 ast/x86_64/home/user/main.cpp\n",
     "_Z3foov@x86_64\n", "/home/user/main.cpp", 1⟩
    rfl (by decide) (by decide) rfl

/-- C8: the suffix appended to every identity is `@` followed by the name
of the target's architecture, where a Thumb target is replaced by its base
`arm` architecture before naming; two triples with the same architecture
yield the same suffix whatever their vendor, OS or environment components
are. -/
theorem clm8_arch_suffix (t : Triple) :
    consumerTriple t =
      "@" ++ archTypeName (if t.arch = ArchType.thumb then ArchType.arm else t.arch) ∧
    (∀ t' : Triple, t'.arch = t.arch → consumerTriple t' = consumerTriple t) ∧
    (t.arch = ArchType.thumb → consumerTriple t = "@arm") := by
  refine ⟨rfl, ?_, ?_⟩
  · intro t' h
    rw [consumerTriple, consumerTriple, getTripleSuffix, getTripleSuffix, h]
  · intro h
    rw [consumerTriple, getTripleSuffix, h]
    rfl

/-- C8 (witness): a thumb target produces `@arm`, and two x86_64 targets
with different vendor / OS / environment agree. -/
theorem clm8_witness :
    consumerTriple ⟨ArchType.thumb, "pc", "linux", "gnu"⟩ = "@arm" ∧
    consumerTriple ⟨ArchType.x86_64, "apple", "darwin", "gnu"⟩ =
      consumerTriple ⟨ArchType.x86_64, "pc", "linux", "musl"⟩ :=
  ⟨(clm8_arch_suffix ⟨ArchType.thumb, "pc", "linux", "gnu"⟩).2.2 rfl,
   (clm8_arch_suffix ⟨ArchType.x86_64, "pc", "linux", "musl"⟩).2.1
     ⟨ArchType.x86_64, "apple", "darwin", "gnu"⟩ rfl⟩

/-- C9: when a buffer is empty at flush time, the corresponding dataset
file is not opened, locked or written (no operation of the flush targets
it) and its content is unchanged in the resulting file system. -/
theorem clm9_empty_buffer_flush_noop (ctuDir : String) (st : ConsumerState)
    (fs : FileSystem) (writtenE writtenD : Int) :
    (st.definedFuncsStr = "" →
      (∀ op ∈ (flushConsumer ctuDir st fs writtenE writtenD).2,
        op.fileOf ≠ definedFnsPath ctuDir) ∧
      ∀ fs', (flushConsumer ctuDir st fs writtenE writtenD).1 = some fs' →
        fs'.definedFns = fs.definedFns) ∧
    (st.externFuncStr = "" →
      (∀ op ∈ (flushConsumer ctuDir st fs writtenE writtenD).2,
        op.fileOf ≠ externalFnsPath ctuDir) ∧
      ∀ fs', (flushConsumer ctuDir st fs writtenE writtenD).1 = some fs' →
        fs'.externalFns = fs.externalFns) := by
  constructor
  · intro hD
    have hLWD := lockedWrite_empty (definedFnsPath ctuDir) fs.definedFns writtenD
    have hops := lockedWrite_ops_file (externalFnsPath ctuDir) st.externFuncStr
      fs.externalFns writtenE
    cases hE : lockedWrite (externalFnsPath ctuDir) st.externFuncStr fs.externalFns writtenE with
    | mk oE ops1 =>
      rw [hE] at hops
      cases oE with
      | none =>
        constructor
        · intro op hop
          simp only [flushConsumer, hE] at hop
          rw [hops op hop]
          exact externalFnsPath_ne_definedFnsPath ctuDir
        · intro fs' hfs'
          simp only [flushConsumer, hE] at hfs'
          exact Option.noConfusion hfs'
      | some e =>
        constructor
        · intro op hop
          simp only [flushConsumer, hE, hD, hLWD, List.append_nil] at hop
          rw [hops op hop]
          exact externalFnsPath_ne_definedFnsPath ctuDir
        · intro fs' hfs'
          simp only [flushConsumer, hE, hD, hLWD, Option.some.injEq] at hfs'
          rw [← hfs']
  · intro hX
    have hLWE := lockedWrite_empty (externalFnsPath ctuDir) fs.externalFns writtenE
    have hops := lockedWrite_ops_file (definedFnsPath ctuDir) st.definedFuncsStr
      fs.definedFns writtenD
    cases hDW : lockedWrite (definedFnsPath ctuDir) st.definedFuncsStr fs.definedFns writtenD with
    | mk oD ops2 =>
      rw [hDW] at hops
      cases oD with
      | none =>
        constructor
        · intro op hop
          simp only [flushConsumer, hX, hLWE, hDW, List.nil_append] at hop
          rw [hops op hop]
          exact fun h => externalFnsPath_ne_definedFnsPath ctuDir h.symm
        · intro fs' hfs'
          simp only [flushConsumer, hX, hLWE, hDW] at hfs'
          exact Option.noConfusion hfs'
      | some d =>
        constructor
        · intro op hop
          simp only [flushConsumer, hX, hLWE, hDW, List.nil_append] at hop
          rw [hops op hop]
          exact fun h => externalFnsPath_ne_definedFnsPath ctuDir h.symm
        · intro fs' hfs'
          simp only [flushConsumer, hX, hLWE, hDW, Option.some.injEq] at hfs'
          rw [← hfs']

/-- C9 (witness): with an empty Defined buffer, flushing the fixture unit
leaves `definedFns.txt`'s content untouched. -/
theorem clm9_witness :
    FileSystem.definedFns ⟨"d\n", "y\nx@arm\n"⟩ = FileSystem.definedFns ⟨"d\n", "y\n"⟩ :=
  ((clm9_empty_buffer_flush_noop "/ctu" ⟨"", "x@arm\n", "/m.cpp", 1⟩ ⟨"d\n", "y\n"⟩ 6 0).1
    rfl).2 ⟨"d\n", "y\nx@arm\n"⟩ (by decide)

end ClangFnMapGen
